import Mathlib

set_option maxHeartbeats 1000000

/-!
Shallow embedding of the tablet RowSetTree (src/tablet/rowset_tree.cc) and
proofs of its specified properties.

Keys (`Slice`s) are modelled as byte strings, i.e. `List Nat`.  A rowset is
modelled by its identity together with the behaviour of its `GetBounds`
call, which is the only way the RowSetTree consults it.  The interval-tree
primitive and the slice comparator live outside the given sources and are
modelled from the spec contract, as noted on each such definition.
-/

/-- Modelled from the spec: byte-lexicographic comparison over a key's raw
bytes (`Slice::compare` from util/slice.h, which is not among the given
sources; the spec fixes the order as byte-lexicographic). -/
def sliceCompare : List Nat → List Nat → Ordering
  | [], [] => Ordering.eq
  | [], _ :: _ => Ordering.lt
  | _ :: _, [] => Ordering.gt
  | a :: as, b :: bs =>
    if a < b then Ordering.lt
    else if b < a then Ordering.gt
    else sliceCompare as bs

/-- Modelled from the spec: the result of a rowset's bounds query (`Status`
from util/status.h is not among the given sources): success, NotSupported,
or some other error identified by a numeric code. -/
inductive Status where
  | ok : Status
  | notSupported : Status
  | error (code : Nat) : Status
deriving DecidableEq

/-- Boolean test mirroring `Status::ok()`. -/
def Status.isOk : Status → Bool
  | Status.ok => true
  | _ => false

/-- Boolean test mirroring `Status::IsNotSupported()`. -/
def Status.IsNotSupported : Status → Bool
  | Status.notSupported => true
  | _ => false

@[simp] theorem Status.isOk_ok : Status.ok.isOk = true := rfl

@[simp] theorem Status.isOk_notSupported : Status.notSupported.isOk = false := rfl

@[simp] theorem Status.isOk_error (c : Nat) : (Status.error c).isOk = false := rfl

@[simp] theorem Status.IsNotSupported_ok : Status.ok.IsNotSupported = false := rfl

@[simp] theorem Status.IsNotSupported_notSupported :
    Status.notSupported.IsNotSupported = true := rfl

@[simp] theorem Status.IsNotSupported_error (c : Nat) :
    (Status.error c).IsNotSupported = false := rfl

/-- A rowset as seen by the RowSetTree: an identity (standing for the C++
object address) together with the behaviour of its `GetBounds` call.
`boundsStatus` is the `Status` that call returns; when it is OK, `min_key`
and `max_key` are the bounds it reports through its out-parameters. -/
structure RowSet where
  id : Nat
  boundsStatus : Status
  min_key : List Nat
  max_key : List Nat
deriving DecidableEq

/-- The status returned by `RowSet::GetBounds`. -/
def RowSet.GetBounds (rs : RowSet) : Status := rs.boundsStatus

/-- Entry for use in the interval tree (struct `RowSetWithBounds`):
a rowset reference with its bounds copied at build time. -/
structure RowSetWithBounds where
  rowset : RowSet
  min_key : List Nat
  max_key : List Nat
deriving DecidableEq

/-- Traits for the interval tree (`RowSetIntervalTraits::get_left`). -/
def RowSetIntervalTraits.get_left (rs : RowSetWithBounds) : List Nat := rs.min_key

/-- Traits for the interval tree (`RowSetIntervalTraits::get_right`). -/
def RowSetIntervalTraits.get_right (rs : RowSetWithBounds) : List Nat := rs.max_key

/-- Traits for the interval tree (`RowSetIntervalTraits::compare`). -/
def RowSetIntervalTraits.compare (a b : List Nat) : Ordering := sliceCompare a b

/-- Modelled from the spec: the reused interval-tree primitive
(util/interval_tree.h is not among the given sources).  Per the spec its
query behaviour is fully characterised by the set of intervals it was built
from, so it is modelled by that set. -/
structure IntervalTree where
  intervals : List RowSetWithBounds
deriving DecidableEq

/-- Modelled from the spec: point-containment query of the interval tree;
returns every stored interval containing the probe point, both ends
inclusive, under the traits' comparison. -/
def IntervalTree.FindContainingPoint (tr : IntervalTree) (q : List Nat) :
    List RowSetWithBounds :=
  tr.intervals.filter fun e =>
    decide (RowSetIntervalTraits.compare (RowSetIntervalTraits.get_left e) q ≠ Ordering.gt) &&
    decide (RowSetIntervalTraits.compare q (RowSetIntervalTraits.get_right e) ≠ Ordering.gt)

/-- Modelled from the spec: interval-overlap query of the interval tree;
returns every stored interval `[min,max]` with `min ≤ hi` and `max ≥ lo`,
both query ends inclusive, under the traits' comparison. -/
def IntervalTree.FindIntersectingInterval (tr : IntervalTree) (lo hi : List Nat) :
    List RowSetWithBounds :=
  tr.intervals.filter fun e =>
    decide (RowSetIntervalTraits.compare (RowSetIntervalTraits.get_left e) hi ≠ Ordering.gt) &&
    decide (RowSetIntervalTraits.compare lo (RowSetIntervalTraits.get_right e) ≠ Ordering.gt)

/-- Endpoint kind of a bounded rowset's range (declared in
tablet/rowset_tree.h; its use is visible in rowset_tree.cc). -/
inductive EndpointType where
  | START : EndpointType
  | STOP : EndpointType
deriving DecidableEq

/-- A range endpoint record (`RowSetTree::RSEndpoint`): rowset reference,
endpoint kind and the key at which the endpoint lies. -/
structure RSEndpoint where
  rowset : RowSet
  endpoint : EndpointType
  slice : List Nat
deriving DecidableEq

/-- The strict comparator used to sort endpoints
(`RSEndpointBySliceCompare`): true when `a.slice_` is byte-lexicographically
strictly less than `b.slice_`. -/
def RSEndpointBySliceCompare (a b : RSEndpoint) : Prop :=
  sliceCompare a.slice b.slice = Ordering.lt

instance : DecidableRel RSEndpointBySliceCompare := fun a b =>
  inferInstanceAs (Decidable (sliceCompare a.slice b.slice = Ordering.lt))

/-- The non-strict order induced by `RSEndpointBySliceCompare`, i.e. the
order in which `std::sort` leaves adjacent elements. -/
def endpointLE (a b : RSEndpoint) : Prop := ¬ RSEndpointBySliceCompare b a

instance : DecidableRel endpointLE := fun a b =>
  inferInstanceAs (Decidable (¬ RSEndpointBySliceCompare b a))

/-- The RowSetTree's state: the initialization flag and the five owned
artifacts (bounded entries, unbounded list, sorted endpoint sequence, the
full rowset list and the interval tree). -/
structure RowSetTree where
  initted : Bool
  entries : List RowSetWithBounds
  unbounded_rowsets : List RowSet
  key_endpoints : List RSEndpoint
  all_rowsets : List RowSet
  tree : Option IntervalTree
deriving DecidableEq

/-- A freshly constructed RowSetTree: `initted_` is false, every owned
collection is empty and no tree has been built. -/
def RowSetTree.new : RowSetTree :=
  { initted := false, entries := [], unbounded_rowsets := [],
    key_endpoints := [], all_rowsets := [], tree := none }

/-- The per-rowset loop of `RowSetTree::Reset`: processes the rowsets in
order, returning either the first non-NotSupported bounds error, or the
collected bounded entries, unbounded rowsets and (still unsorted) endpoint
records, each in encounter order. -/
def resetLoop : List RowSet →
    Except Status (List RowSetWithBounds × List RowSet × List RSEndpoint)
  | [] => Except.ok ([], [], [])
  | rs :: rest =>
    if (rs.GetBounds).IsNotSupported then
      match resetLoop rest with
      | Except.error e => Except.error e
      | Except.ok (es, us, eps) => Except.ok (es, rs :: us, eps)
    else if !(rs.GetBounds).isOk then
      Except.error rs.GetBounds
    else
      match resetLoop rest with
      | Except.error e => Except.error e
      | Except.ok (es, us, eps) =>
        Except.ok (⟨rs, rs.min_key, rs.max_key⟩ :: es, us,
          ⟨rs, EndpointType.START, rs.min_key⟩ ::
            ⟨rs, EndpointType.STOP, rs.max_key⟩ :: eps)

/-- `RowSetTree::Reset`: builds the index from the rowsets.  `none` models
the fatal `CHECK(!initted_)` failure.  Otherwise the result pairs the
returned `Status` with the state of the object after the call; when the
build fails the member fields are untouched, which the C++ guarantees by
installing the working collections only after the loop has succeeded. -/
def RowSetTree.Reset (t : RowSetTree) (rowsets : List RowSet) :
    Option (Status × RowSetTree) :=
  if t.initted then none
  else
    match resetLoop rowsets with
    | Except.error s => some (s, t)
    | Except.ok (es, us, eps) =>
      some (Status.ok,
        { initted := true
          entries := es
          unbounded_rowsets := us
          key_endpoints := List.insertionSort endpointLE eps
          all_rowsets := rowsets
          tree := some ⟨es⟩ })

/-- `RowSetTree::FindRowSetsIntersectingInterval`: appends to the caller's
vector every unbounded rowset, then every bounded rowset whose captured
interval intersects `[lower_bound, upper_bound]` per the tree query. -/
def RowSetTree.FindRowSetsIntersectingInterval (t : RowSetTree)
    (lower_bound upper_bound : List Nat) (rowsets : List RowSet) : List RowSet :=
  rowsets ++ t.unbounded_rowsets ++
    (((t.tree.getD ⟨[]⟩).FindIntersectingInterval lower_bound upper_bound).map
      fun rs => rs.rowset)

/-- `RowSetTree::FindRowSetsWithKeyInRange`: appends to the caller's vector
every unbounded rowset, then every bounded rowset whose captured interval
contains `encoded_key` per the tree query. -/
def RowSetTree.FindRowSetsWithKeyInRange (t : RowSetTree)
    (encoded_key : List Nat) (rowsets : List RowSet) : List RowSet :=
  rowsets ++ t.unbounded_rowsets ++
    (((t.tree.getD ⟨[]⟩).FindContainingPoint encoded_key).map fun rs => rs.rowset)

/-- The bounded entry `Reset` builds for a rowset whose bounds query
succeeded. -/
def boundedEntryOf (rs : RowSet) : RowSetWithBounds := ⟨rs, rs.min_key, rs.max_key⟩

/-- The two endpoint records `Reset` creates for one bounded entry. -/
def entryEndpoints (e : RowSetWithBounds) : List RSEndpoint :=
  [⟨e.rowset, EndpointType.START, e.min_key⟩, ⟨e.rowset, EndpointType.STOP, e.max_key⟩]

/-! ### Order lemmas for the byte-lexicographic comparison -/

theorem sliceCompare_swap : ∀ a b : List Nat, sliceCompare b a = (sliceCompare a b).swap := by
  intro a
  induction a with
  | nil => intro b; cases b <;> rfl
  | cons x xs ih =>
    intro b
    cases b with
    | nil => rfl
    | cons y ys =>
      simp only [sliceCompare]
      rcases Nat.lt_trichotomy x y with h | h | h
      · rw [if_neg (by omega), if_pos h, if_pos h]
        rfl
      · subst h
        rw [if_neg (by omega), if_neg (by omega), if_neg (by omega), if_neg (by omega)]
        exact ih ys
      · rw [if_pos h, if_neg (by omega), if_pos h]
        rfl

theorem sliceCompare_le_trans : ∀ a b c : List Nat,
    sliceCompare a b ≠ Ordering.gt → sliceCompare b c ≠ Ordering.gt →
    sliceCompare a c ≠ Ordering.gt := by
  intro a
  induction a with
  | nil => intro b c h1 h2; cases c <;> simp [sliceCompare]
  | cons x xs ih =>
    intro b c h1 h2
    cases b with
    | nil => simp [sliceCompare] at h1
    | cons y ys =>
      cases c with
      | nil => simp [sliceCompare] at h2
      | cons z zs =>
        simp only [sliceCompare] at h1 h2 ⊢
        rcases Nat.lt_trichotomy x y with hxy | hxy | hxy
        · rcases Nat.lt_trichotomy y z with hyz | hyz | hyz
          · rw [if_pos (by omega)]; simp
          · subst hyz; rw [if_pos hxy]; simp
          · exfalso; rw [if_neg (by omega), if_pos hyz] at h2; exact h2 rfl
        · subst hxy
          rw [if_neg (by omega), if_neg (by omega)] at h1
          rcases Nat.lt_trichotomy x z with hxz | hxz | hxz
          · rw [if_pos hxz]; simp
          · subst hxz
            rw [if_neg (by omega), if_neg (by omega)] at h2 ⊢
            exact ih ys zs h1 h2
          · exfalso; rw [if_neg (by omega), if_pos hxz] at h2; exact h2 rfl
        · exfalso; rw [if_neg (by omega), if_pos hxy] at h1; exact h1 rfl

theorem endpointLE_iff (a b : RSEndpoint) :
    endpointLE a b ↔ sliceCompare a.slice b.slice ≠ Ordering.gt := by
  unfold endpointLE RSEndpointBySliceCompare
  rw [sliceCompare_swap a.slice b.slice]
  cases sliceCompare a.slice b.slice <;> simp [Ordering.swap]

instance : IsTrans RSEndpoint endpointLE where
  trans a b c hab hbc := by
    rw [endpointLE_iff] at *
    exact sliceCompare_le_trans _ _ _ hab hbc

instance : IsTotal RSEndpoint endpointLE where
  total a b := by
    rw [endpointLE_iff, endpointLE_iff]
    by_cases h : sliceCompare a.slice b.slice = Ordering.gt
    · right
      rw [sliceCompare_swap a.slice b.slice, h]
      simp [Ordering.swap]
    · left; exact h

/-! ### Characterisation of the build loop -/

theorem resetLoop_ok_char : ∀ (rowsets : List RowSet) (es : List RowSetWithBounds)
    (us : List RowSet) (eps : List RSEndpoint),
    resetLoop rowsets = Except.ok (es, us, eps) →
    es = (rowsets.filter fun r => (r.GetBounds).isOk).map boundedEntryOf ∧
    us = rowsets.filter (fun r => (r.GetBounds).IsNotSupported) ∧
    eps = es.flatMap entryEndpoints ∧
    ∀ r ∈ rowsets, ∀ c, r.GetBounds ≠ Status.error c := by
  intro rowsets
  induction rowsets with
  | nil =>
    intro es us eps h
    simp only [resetLoop, Except.ok.injEq, Prod.mk.injEq] at h
    obtain ⟨h1, h2, h3⟩ := h
    subst h1; subst h2; subst h3
    simp
  | cons r rest ih =>
    intro es us eps h
    cases hs : r.GetBounds with
    | ok =>
      rw [show resetLoop (r :: rest) = (match resetLoop rest with
          | Except.error e => Except.error e
          | Except.ok (es, us, eps) =>
            Except.ok (⟨r, r.min_key, r.max_key⟩ :: es, us,
              ⟨r, EndpointType.START, r.min_key⟩ ::
                ⟨r, EndpointType.STOP, r.max_key⟩ :: eps)) by
        simp [resetLoop, hs, Status.IsNotSupported, Status.isOk]] at h
      cases hrest : resetLoop rest with
      | error e => rw [hrest] at h; exact absurd h (by simp)
      | ok out =>
        obtain ⟨es0, us0, eps0⟩ := out
        rw [hrest] at h
        simp only [Except.ok.injEq, Prod.mk.injEq] at h
        obtain ⟨h1, h2, h3⟩ := h
        obtain ⟨hces, hcus, hceps, hne⟩ := ih es0 us0 eps0 hrest
        subst h1; subst h2; subst h3
        refine ⟨?_, ?_, ?_, ?_⟩
        · simp [List.filter_cons, hs, Status.isOk, hces, boundedEntryOf]
        · simp [List.filter_cons, hs, Status.IsNotSupported, hcus]
        · simp [entryEndpoints, hceps]
        · intro p hp c
          rcases List.mem_cons.mp hp with hpe | hpe
          · subst hpe; rw [hs]; simp
          · exact hne p hpe c
    | notSupported =>
      rw [show resetLoop (r :: rest) = (match resetLoop rest with
          | Except.error e => Except.error e
          | Except.ok (es, us, eps) => Except.ok (es, r :: us, eps)) by
        simp [resetLoop, hs, Status.IsNotSupported]] at h
      cases hrest : resetLoop rest with
      | error e => rw [hrest] at h; exact absurd h (by simp)
      | ok out =>
        obtain ⟨es0, us0, eps0⟩ := out
        rw [hrest] at h
        simp only [Except.ok.injEq, Prod.mk.injEq] at h
        obtain ⟨h1, h2, h3⟩ := h
        obtain ⟨hces, hcus, hceps, hne⟩ := ih es0 us0 eps0 hrest
        subst h1; subst h2; subst h3
        refine ⟨?_, ?_, ?_, ?_⟩
        · simp [List.filter_cons, hs, Status.isOk, hces]
        · simp [List.filter_cons, hs, Status.IsNotSupported, hcus]
        · exact hceps
        · intro p hp c
          rcases List.mem_cons.mp hp with hpe | hpe
          · subst hpe; rw [hs]; simp
          · exact hne p hpe c
    | error c =>
      rw [show resetLoop (r :: rest) = Except.error (r.GetBounds) by
        simp [resetLoop, hs, Status.IsNotSupported, Status.isOk]] at h
      exact absurd h (by simp)

theorem resetLoop_error_shape : ∀ (rowsets : List RowSet) (s : Status),
    resetLoop rowsets = Except.error s → ∃ c, s = Status.error c := by
  intro rowsets
  induction rowsets with
  | nil => intro s h; exact absurd h (by simp [resetLoop])
  | cons r rest ih =>
    intro s h
    cases hs : r.GetBounds with
    | ok =>
      rw [show resetLoop (r :: rest) = (match resetLoop rest with
          | Except.error e => Except.error e
          | Except.ok (es, us, eps) =>
            Except.ok (⟨r, r.min_key, r.max_key⟩ :: es, us,
              ⟨r, EndpointType.START, r.min_key⟩ ::
                ⟨r, EndpointType.STOP, r.max_key⟩ :: eps)) by
        simp [resetLoop, hs, Status.IsNotSupported, Status.isOk]] at h
      cases hrest : resetLoop rest with
      | error e =>
        rw [hrest] at h
        simp only [Except.error.injEq] at h
        subst h
        exact ih e hrest
      | ok out =>
        obtain ⟨es0, us0, eps0⟩ := out
        rw [hrest] at h
        exact absurd h (by simp)
    | notSupported =>
      rw [show resetLoop (r :: rest) = (match resetLoop rest with
          | Except.error e => Except.error e
          | Except.ok (es, us, eps) => Except.ok (es, r :: us, eps)) by
        simp [resetLoop, hs, Status.IsNotSupported]] at h
      cases hrest : resetLoop rest with
      | error e =>
        rw [hrest] at h
        simp only [Except.error.injEq] at h
        subst h
        exact ih e hrest
      | ok out =>
        obtain ⟨es0, us0, eps0⟩ := out
        rw [hrest] at h
        exact absurd h (by simp)
    | error c =>
      rw [show resetLoop (r :: rest) = Except.error (r.GetBounds) by
        simp [resetLoop, hs, Status.IsNotSupported, Status.isOk]] at h
      simp only [Except.error.injEq] at h
      subst h
      exact ⟨c, hs⟩

theorem resetLoop_first_error (pre post : List RowSet) (r : RowSet) (c : Nat)
    (hpre : ∀ p ∈ pre, ∀ c2, p.GetBounds ≠ Status.error c2)
    (hr : r.GetBounds = Status.error c) :
    resetLoop (pre ++ r :: post) = Except.error (Status.error c) := by
  induction pre with
  | nil =>
    rw [List.nil_append]
    rw [show resetLoop (r :: post) = Except.error (r.GetBounds) by
      simp [resetLoop, hr, Status.IsNotSupported, Status.isOk]]
    rw [hr]
  | cons p pre ih =>
    have hrec := ih fun q hq c2 => hpre q (List.mem_cons_of_mem _ hq) c2
    have hp := hpre p (List.mem_cons_self _ _)
    cases hs : p.GetBounds with
    | ok =>
      rw [List.cons_append]
      rw [show resetLoop (p :: (pre ++ r :: post)) =
          (match resetLoop (pre ++ r :: post) with
          | Except.error e => Except.error e
          | Except.ok (es, us, eps) =>
            Except.ok (⟨p, p.min_key, p.max_key⟩ :: es, us,
              ⟨p, EndpointType.START, p.min_key⟩ ::
                ⟨p, EndpointType.STOP, p.max_key⟩ :: eps)) by
        simp [resetLoop, hs, Status.IsNotSupported, Status.isOk]]
      rw [hrec]
    | notSupported =>
      rw [List.cons_append]
      rw [show resetLoop (p :: (pre ++ r :: post)) =
          (match resetLoop (pre ++ r :: post) with
          | Except.error e => Except.error e
          | Except.ok (es, us, eps) => Except.ok (es, p :: us, eps)) by
        simp [resetLoop, hs, Status.IsNotSupported]]
      rw [hrec]
    | error c2 => exact absurd hs (hp c2)

theorem resetLoop_ok_of_noerror : ∀ (rowsets : List RowSet),
    (∀ r ∈ rowsets, ∀ c, r.GetBounds ≠ Status.error c) →
    ∃ out, resetLoop rowsets = Except.ok out := by
  intro rowsets
  induction rowsets with
  | nil => intro _; exact ⟨([], [], []), rfl⟩
  | cons r rest ih =>
    intro h
    obtain ⟨⟨es, us, eps⟩, hout⟩ := ih fun p hp c => h p (List.mem_cons_of_mem _ hp) c
    have hr := h r (List.mem_cons_self _ _)
    cases hs : r.GetBounds with
    | ok =>
      refine ⟨(⟨r, r.min_key, r.max_key⟩ :: es, us,
        ⟨r, EndpointType.START, r.min_key⟩ ::
          ⟨r, EndpointType.STOP, r.max_key⟩ :: eps), ?_⟩
      rw [show resetLoop (r :: rest) = (match resetLoop rest with
          | Except.error e => Except.error e
          | Except.ok (es, us, eps) =>
            Except.ok (⟨r, r.min_key, r.max_key⟩ :: es, us,
              ⟨r, EndpointType.START, r.min_key⟩ ::
                ⟨r, EndpointType.STOP, r.max_key⟩ :: eps)) by
        simp [resetLoop, hs, Status.IsNotSupported, Status.isOk]]
      rw [hout]
    | notSupported =>
      refine ⟨(es, r :: us, eps), ?_⟩
      rw [show resetLoop (r :: rest) = (match resetLoop rest with
          | Except.error e => Except.error e
          | Except.ok (es, us, eps) => Except.ok (es, r :: us, eps)) by
        simp [resetLoop, hs, Status.IsNotSupported]]
      rw [hout]
    | error c => exact absurd hs (hr c)

/-! ### State after a successful Reset -/

theorem Reset_ok_state (t0 t : RowSetTree) (rowsets : List RowSet)
    (h : t0.Reset rowsets = some (Status.ok, t)) :
    t.initted = true ∧
    t.entries = (rowsets.filter fun r => (r.GetBounds).isOk).map boundedEntryOf ∧
    t.unbounded_rowsets = rowsets.filter (fun r => (r.GetBounds).IsNotSupported) ∧
    t.key_endpoints = List.insertionSort endpointLE (t.entries.flatMap entryEndpoints) ∧
    t.all_rowsets = rowsets ∧
    t.tree = some ⟨t.entries⟩ ∧
    ∀ r ∈ rowsets, ∀ c, r.GetBounds ≠ Status.error c := by
  unfold RowSetTree.Reset at h
  by_cases hi : t0.initted
  · rw [if_pos hi] at h; exact absurd h (by simp)
  · rw [if_neg hi] at h
    cases hl : resetLoop rowsets with
    | error s =>
      rw [hl] at h
      simp only [Option.some.injEq, Prod.mk.injEq] at h
      obtain ⟨c, hc⟩ := resetLoop_error_shape rowsets s hl
      rw [hc] at h
      exact absurd h.1.symm (by simp)
    | ok out =>
      obtain ⟨es, us, eps⟩ := out
      rw [hl] at h
      simp only [Option.some.injEq, Prod.mk.injEq] at h
      obtain ⟨hces, hcus, hceps, hne⟩ := resetLoop_ok_char rowsets es us eps hl
      obtain ⟨-, h2⟩ := h
      subst h2
      refine ⟨rfl, hces, hcus, ?_, rfl, rfl, hne⟩
      show List.insertionSort endpointLE eps = List.insertionSort endpointLE (es.flatMap entryEndpoints)
      rw [hceps]

theorem mem_entries_eq_boundedEntryOf (rowsets : List RowSet) (e : RowSetWithBounds)
    (he : e ∈ (rowsets.filter fun r => (r.GetBounds).isOk).map boundedEntryOf) :
    e = boundedEntryOf e.rowset ∧ (e.rowset.GetBounds).isOk = true ∧ e.rowset ∈ rowsets := by
  obtain ⟨r, hr, hre⟩ := List.mem_map.mp he
  have hf := List.mem_filter.mp hr
  subst hre
  exact ⟨rfl, hf.2, hf.1⟩

theorem not_isOk_and_IsNotSupported (s : Status) :
    ¬ (s.isOk = true ∧ s.IsNotSupported = true) := by
  cases s <;> simp [Status.isOk, Status.IsNotSupported]

/-- C1: for every successfully built index, every bounded segment with
captured bounds `[min,max]` and every probe key `key`, the segment appears
in the result of `FindRowSetsWithKeyInRange key` iff
`min ≤ key ≤ max` under byte-lexicographic comparison. -/
theorem reset_point_query_iff_contains (t0 t : RowSetTree) (rowsets : List RowSet)
    (h : t0.Reset rowsets = some (Status.ok, t))
    (e : RowSetWithBounds) (he : e ∈ t.entries) (key : List Nat) :
    e.rowset ∈ t.FindRowSetsWithKeyInRange key [] ↔
      (sliceCompare e.min_key key ≠ Ordering.gt ∧
       sliceCompare key e.max_key ≠ Ordering.gt) := by
  obtain ⟨hin, hces, hcus, hcep, hall, htree, hne⟩ := Reset_ok_state t0 t rowsets h
  have hech := mem_entries_eq_boundedEntryOf rowsets e (hces ▸ he)
  unfold RowSetTree.FindRowSetsWithKeyInRange
  rw [htree]
  simp only [Option.getD_some, List.nil_append, List.mem_append]
  unfold IntervalTree.FindContainingPoint
  constructor
  · intro hmem
    rcases hmem with hmem | hmem
    · exfalso
      rw [hcus] at hmem
      have hns : (e.rowset.GetBounds).IsNotSupported = true := (List.mem_filter.mp hmem).2
      exact not_isOk_and_IsNotSupported _ ⟨hech.2.1, hns⟩
    · obtain ⟨e2, he2, he2r⟩ := List.mem_map.mp hmem
      have he2f := List.mem_filter.mp he2
      have he2ch := mem_entries_eq_boundedEntryOf rowsets e2 (hces ▸ he2f.1)
      have he2e : e2 = e := by
        rw [he2ch.1, he2r, ← hech.1]
      rw [he2e] at he2f
      have hp := he2f.2
      simp only [RowSetIntervalTraits.compare, RowSetIntervalTraits.get_left,
        RowSetIntervalTraits.get_right, Bool.and_eq_true, decide_eq_true_eq, ne_eq] at hp
      exact hp
  · intro hcond
    right
    refine List.mem_map.mpr ⟨e, List.mem_filter.mpr ⟨he, ?_⟩, rfl⟩
    simp only [RowSetIntervalTraits.compare, RowSetIntervalTraits.get_left,
      RowSetIntervalTraits.get_right, Bool.and_eq_true, decide_eq_true_eq, ne_eq]
    exact hcond

/-- C3: unbounded segments appear in the result of every point query and
every range query, unconditionally. -/
theorem unbounded_always_included (t : RowSetTree) (u : RowSet)
    (hu : u ∈ t.unbounded_rowsets) (key lo hi : List Nat) (acc : List RowSet) :
    u ∈ t.FindRowSetsWithKeyInRange key acc ∧
    u ∈ t.FindRowSetsIntersectingInterval lo hi acc := by
  constructor
  · unfold RowSetTree.FindRowSetsWithKeyInRange
    simp [List.mem_append, hu]
  · unfold RowSetTree.FindRowSetsIntersectingInterval
    simp [List.mem_append, hu]

/-- C7: calling Reset on an already-initialized instance hits the fatal
`CHECK(!initted_)` (modelled as `none`): no state is rebuilt or mutated. -/
theorem reset_twice_fatal (t : RowSetTree) (rowsets : List RowSet)
    (h : t.initted = true) :
    t.Reset rowsets = none := by
  unfold RowSetTree.Reset
  rw [if_pos h]

/-- C9: both query operations only append to the caller-supplied vector:
the pre-existing elements stay in place and the results follow them. -/
theorem queries_append_only (t : RowSetTree) (key lo hi : List Nat)
    (acc : List RowSet) :
    t.FindRowSetsWithKeyInRange key acc = acc ++ t.FindRowSetsWithKeyInRange key [] ∧
    t.FindRowSetsIntersectingInterval lo hi acc =
      acc ++ t.FindRowSetsIntersectingInterval lo hi [] := by
  unfold RowSetTree.FindRowSetsWithKeyInRange RowSetTree.FindRowSetsIntersectingInterval
  simp

/-- C2: for every successfully built index, every bounded segment with
captured bounds `[min,max]` and every query range `[lo,hi]` with `lo ≤ hi`,
the segment appears in the result of `FindRowSetsIntersectingInterval lo hi`
iff `min ≤ hi` and `max ≥ lo`, byte-lexicographically, both ends inclusive. -/
theorem reset_interval_query_iff_overlaps (t0 t : RowSetTree) (rowsets : List RowSet)
    (h : t0.Reset rowsets = some (Status.ok, t))
    (e : RowSetWithBounds) (he : e ∈ t.entries) (lo hi : List Nat)
    (_hlohi : sliceCompare lo hi ≠ Ordering.gt) :
    e.rowset ∈ t.FindRowSetsIntersectingInterval lo hi [] ↔
      (sliceCompare e.min_key hi ≠ Ordering.gt ∧
       sliceCompare lo e.max_key ≠ Ordering.gt) := by
  obtain ⟨hin, hces, hcus, hcep, hall, htree, hne⟩ := Reset_ok_state t0 t rowsets h
  have hech := mem_entries_eq_boundedEntryOf rowsets e (hces ▸ he)
  unfold RowSetTree.FindRowSetsIntersectingInterval
  rw [htree]
  simp only [Option.getD_some, List.nil_append, List.mem_append]
  unfold IntervalTree.FindIntersectingInterval
  constructor
  · intro hmem
    rcases hmem with hmem | hmem
    · exfalso
      rw [hcus] at hmem
      have hns : (e.rowset.GetBounds).IsNotSupported = true := (List.mem_filter.mp hmem).2
      exact not_isOk_and_IsNotSupported _ ⟨hech.2.1, hns⟩
    · obtain ⟨e2, he2, he2r⟩ := List.mem_map.mp hmem
      have he2f := List.mem_filter.mp he2
      have he2ch := mem_entries_eq_boundedEntryOf rowsets e2 (hces ▸ he2f.1)
      have he2e : e2 = e := by
        rw [he2ch.1, he2r, ← hech.1]
      rw [he2e] at he2f
      have hp := he2f.2
      simp only [RowSetIntervalTraits.compare, RowSetIntervalTraits.get_left,
        RowSetIntervalTraits.get_right, Bool.and_eq_true, decide_eq_true_eq, ne_eq] at hp
      exact hp
  · intro hcond
    right
    refine List.mem_map.mpr ⟨e, List.mem_filter.mpr ⟨he, ?_⟩, rfl⟩
    simp only [RowSetIntervalTraits.compare, RowSetIntervalTraits.get_left,
      RowSetIntervalTraits.get_right, Bool.and_eq_true, decide_eq_true_eq, ne_eq]
    exact hcond

/-- C4: when some segment's bounds query fails with a non-NotSupported
error, `Reset` returns that error (the first such, in iteration order) and
leaves the instance exactly as it was: uninitialized, no artifact touched.
The conclusion returns the pre-call state `t` itself. -/
theorem reset_fail_fast (t : RowSetTree) (pre post : List RowSet) (r : RowSet)
    (c : Nat) (ht : t.initted = false)
    (hpre : ∀ p ∈ pre, ∀ c2, p.GetBounds ≠ Status.error c2)
    (hr : r.GetBounds = Status.error c) :
    t.Reset (pre ++ r :: post) = some (Status.error c, t) := by
  unfold RowSetTree.Reset
  rw [if_neg (by rw [ht]; exact Bool.false_ne_true)]
  rw [resetLoop_first_error pre post r c hpre hr]

/-- C5: on every successful `Reset`, each input segment lands in exactly
one of the bounded-entry set (when its bounds query succeeded) or the
unbounded list (when it returned NotSupported), and the sizes add up to
the input size. -/
theorem reset_partition (t0 t : RowSetTree) (rowsets : List RowSet)
    (h : t0.Reset rowsets = some (Status.ok, t)) :
    t.entries.length + t.unbounded_rowsets.length = rowsets.length ∧
    ∀ r ∈ rowsets,
      ((r.GetBounds).isOk = true ∧ (∃ e ∈ t.entries, e.rowset = r) ∧
        r ∉ t.unbounded_rowsets) ∨
      ((r.GetBounds).IsNotSupported = true ∧ r ∈ t.unbounded_rowsets ∧
        ∀ e ∈ t.entries, e.rowset ≠ r) := by
  obtain ⟨hin, hces, hcus, hcep, hall, htree, hne⟩ := Reset_ok_state t0 t rowsets h
  constructor
  · rw [hces, hcus, List.length_map]
    clear hces hcus hcep hall htree h hin
    induction rowsets with
    | nil => simp
    | cons r rest ih =>
      have hr := hne r (List.mem_cons_self _ _)
      have ih2 := ih fun p hp c => hne p (List.mem_cons_of_mem _ hp) c
      cases hs : r.GetBounds with
      | ok =>
        rw [List.filter_cons, List.filter_cons, hs]
        simp only [Status.isOk_ok, Status.IsNotSupported_ok, if_true, Bool.false_eq_true,
          if_false, List.length_cons]
        omega
      | notSupported =>
        rw [List.filter_cons, List.filter_cons, hs]
        simp only [Status.isOk_notSupported, Status.IsNotSupported_notSupported, if_true,
          Bool.false_eq_true, if_false, List.length_cons]
        omega
      | error c => exact absurd hs (hr c)
  · intro r hr
    cases hs : r.GetBounds with
    | ok =>
      left
      refine ⟨by simp [hs], ⟨boundedEntryOf r, ?_, rfl⟩, ?_⟩
      · rw [hces]
        exact List.mem_map.mpr ⟨r, List.mem_filter.mpr ⟨hr, by simp [hs]⟩, rfl⟩
      · intro hmem
        rw [hcus] at hmem
        have hns := (List.mem_filter.mp hmem).2
        rw [hs] at hns
        exact absurd hns (by simp [Status.IsNotSupported])
    | notSupported =>
      right
      refine ⟨by simp [hs], ?_, ?_⟩
      · rw [hcus]
        exact List.mem_filter.mpr ⟨hr, by simp [hs]⟩
      · intro e he hre
        have hech := mem_entries_eq_boundedEntryOf rowsets e (hces ▸ he)
        rw [hre, hs] at hech
        exact absurd hech.2.1 (by simp [Status.isOk])
    | error c => exact absurd hs (hne r hr c)

theorem entryEndpoints_flatMap_length (es : List RowSetWithBounds) :
    (es.flatMap entryEndpoints).length = 2 * es.length := by
  induction es with
  | nil => simp
  | cons e es ih => simp [entryEndpoints, ih]; omega

/-- C6: after every successful `Reset`, the retained endpoint sequence is a
permutation of the two endpoint records (START at `min_key`, STOP at
`max_key`) of each bounded entry, its length is `2 ×` the number of bounded
entries, and it is sorted ascending by key in the byte-lexicographic order
(the non-strict order induced by `RSEndpointBySliceCompare`). -/
theorem reset_endpoints_sorted (t0 t : RowSetTree) (rowsets : List RowSet)
    (h : t0.Reset rowsets = some (Status.ok, t)) :
    t.key_endpoints.length = 2 * t.entries.length ∧
    List.Perm t.key_endpoints (t.entries.flatMap entryEndpoints) ∧
    List.Sorted endpointLE t.key_endpoints := by
  obtain ⟨hin, hces, hcus, hcep, hall, htree, hne⟩ := Reset_ok_state t0 t rowsets h
  have hperm : List.Perm t.key_endpoints (t.entries.flatMap entryEndpoints) := by
    rw [hcep]
    exact List.perm_insertionSort endpointLE _
  refine ⟨?_, hperm, ?_⟩
  · rw [hperm.length_eq, entryEndpoints_flatMap_length]
  · rw [hcep]
    exact List.sorted_insertionSort endpointLE _

/-- C8: a NotSupported bounds result is not an error: with no other-error
segment in the input, `Reset` still succeeds with OK, and the NotSupported
segment goes to the unbounded list with no bounded entry and no endpoint
records created for it. -/
theorem reset_notSupported_routing (t0 : RowSetTree) (rowsets : List RowSet)
    (r : RowSet) (ht : t0.initted = false)
    (hnoerr : ∀ p ∈ rowsets, ∀ c, p.GetBounds ≠ Status.error c)
    (hr : r ∈ rowsets) (hns : r.GetBounds = Status.notSupported) :
    ∃ t, t0.Reset rowsets = some (Status.ok, t) ∧
      r ∈ t.unbounded_rowsets ∧
      (∀ e ∈ t.entries, e.rowset ≠ r) ∧
      ∀ ep ∈ t.key_endpoints, ep.rowset ≠ r := by
  obtain ⟨⟨es, us, eps⟩, hloop⟩ := resetLoop_ok_of_noerror rowsets hnoerr
  have hsome : t0.Reset rowsets = some (Status.ok,
      { initted := true, entries := es, unbounded_rowsets := us,
        key_endpoints := List.insertionSort endpointLE eps,
        all_rowsets := rowsets, tree := some ⟨es⟩ }) := by
    unfold RowSetTree.Reset
    rw [if_neg (by rw [ht]; exact Bool.false_ne_true), hloop]
  refine ⟨_, hsome, ?_, ?_, ?_⟩
  · obtain ⟨hces, hcus, hceps, hne⟩ := resetLoop_ok_char rowsets es us eps hloop
    show r ∈ us
    rw [hcus]
    exact List.mem_filter.mpr ⟨hr, by simp [hns]⟩
  · obtain ⟨hces, hcus, hceps, hne⟩ := resetLoop_ok_char rowsets es us eps hloop
    intro e he hre
    rw [hces] at he
    have hech := mem_entries_eq_boundedEntryOf rowsets e he
    rw [hre, hns] at hech
    exact absurd hech.2.1 (by simp)
  · obtain ⟨hces, hcus, hceps, hne⟩ := resetLoop_ok_char rowsets es us eps hloop
    intro ep hep hepr
    have hep2 : ep ∈ eps := by
      have := (List.perm_insertionSort endpointLE eps).mem_iff.mp hep
      exact this
    rw [hceps] at hep2
    obtain ⟨e, he, hee⟩ := List.mem_flatMap.mp hep2
    rw [hces] at he
    have hech := mem_entries_eq_boundedEntryOf rowsets e he
    have heprs : ep.rowset = e.rowset := by
      simp only [entryEndpoints, List.mem_cons, List.not_mem_nil, or_false] at hee
      rcases hee with hee | hee <;> rw [hee]
    rw [hepr] at heprs
    rw [← heprs, hns] at hech
    exact absurd hech.2.1 (by simp)

/-- C10: the portion either query appends consists of all unbounded
segments first, in the order they were encountered in the `Reset` input,
followed by the matching bounded segments. -/
theorem query_results_order (t0 t : RowSetTree) (rowsets : List RowSet)
    (h : t0.Reset rowsets = some (Status.ok, t))
    (key lo hi : List Nat) (acc : List RowSet) :
    t.FindRowSetsWithKeyInRange key acc =
      acc ++ (rowsets.filter fun r => (r.GetBounds).IsNotSupported) ++
        ((t.entries.filter fun e =>
            decide (sliceCompare e.min_key key ≠ Ordering.gt) &&
            decide (sliceCompare key e.max_key ≠ Ordering.gt)).map
          fun e => e.rowset) ∧
    t.FindRowSetsIntersectingInterval lo hi acc =
      acc ++ (rowsets.filter fun r => (r.GetBounds).IsNotSupported) ++
        ((t.entries.filter fun e =>
            decide (sliceCompare e.min_key hi ≠ Ordering.gt) &&
            decide (sliceCompare lo e.max_key ≠ Ordering.gt)).map
          fun e => e.rowset) := by
  obtain ⟨hin, hces, hcus, hcep, hall, htree, hne⟩ := Reset_ok_state t0 t rowsets h
  constructor
  · unfold RowSetTree.FindRowSetsWithKeyInRange
    rw [htree, hcus]
    rfl
  · unfold RowSetTree.FindRowSetsIntersectingInterval
    rw [htree, hcus]
    rfl

/-! ### Concrete instances used as witnesses -/

/-- Segment A with bounds `[a, c]` (byte values 97, 99). -/
def rsA : RowSet := ⟨0, Status.ok, [97], [99]⟩

/-- Segment B with bounds `[b, d]` (byte values 98, 100). -/
def rsB : RowSet := ⟨1, Status.ok, [98], [100]⟩

/-- Segment C, unbounded: its bounds query returns NotSupported. -/
def rsC : RowSet := ⟨2, Status.notSupported, [], []⟩

/-- A segment whose bounds query fails with a non-NotSupported error. -/
def rsBad : RowSet := ⟨3, Status.error 7, [], []⟩

/-- The input collection of the demonstration build. -/
def demoRowSets : List RowSet := [rsA, rsB, rsC]

/-- The bounded entry built for segment A. -/
def entryA : RowSetWithBounds := ⟨rsA, [97], [99]⟩

/-- The bounded entry built for segment B. -/
def entryB : RowSetWithBounds := ⟨rsB, [98], [100]⟩

/-- The index state produced by `Reset` on `demoRowSets`. -/
def demoTree : RowSetTree :=
  { initted := true
    entries := [entryA, entryB]
    unbounded_rowsets := [rsC]
    key_endpoints :=
      [⟨rsA, EndpointType.START, [97]⟩, ⟨rsB, EndpointType.START, [98]⟩,
       ⟨rsA, EndpointType.STOP, [99]⟩, ⟨rsB, EndpointType.STOP, [100]⟩]
    all_rowsets := demoRowSets
    tree := some ⟨[entryA, entryB]⟩ }

/-- Witness for C1 at segment A and probe key `b` (98). -/
theorem reset_point_query_iff_contains_witness :
    RowSetTree.new.Reset demoRowSets = some (Status.ok, demoTree) ∧
    entryA ∈ demoTree.entries ∧
    (entryA.rowset ∈ demoTree.FindRowSetsWithKeyInRange [98] [] ↔
      (sliceCompare entryA.min_key [98] ≠ Ordering.gt ∧
       sliceCompare [98] entryA.max_key ≠ Ordering.gt)) :=
  ⟨by decide, by decide,
    reset_point_query_iff_contains RowSetTree.new demoTree demoRowSets (by decide)
      entryA (by decide) [98]⟩

/-- Witness for C2 at segment A and query range `[b, g]` (98, 103). -/
theorem reset_interval_query_iff_overlaps_witness :
    RowSetTree.new.Reset demoRowSets = some (Status.ok, demoTree) ∧
    entryA ∈ demoTree.entries ∧
    sliceCompare [98] [103] ≠ Ordering.gt ∧
    (entryA.rowset ∈ demoTree.FindRowSetsIntersectingInterval [98] [103] [] ↔
      (sliceCompare entryA.min_key [103] ≠ Ordering.gt ∧
       sliceCompare [98] entryA.max_key ≠ Ordering.gt)) :=
  ⟨by decide, by decide, by decide,
    reset_interval_query_iff_overlaps RowSetTree.new demoTree demoRowSets (by decide)
      entryA (by decide) [98] [103] (by decide)⟩

/-- Witness for C3 at the unbounded segment C, a probe key far outside all
bounds and a range query. -/
theorem unbounded_always_included_witness :
    rsC ∈ demoTree.unbounded_rowsets ∧
    (rsC ∈ demoTree.FindRowSetsWithKeyInRange [101] [] ∧
     rsC ∈ demoTree.FindRowSetsIntersectingInterval [97] [98] []) :=
  ⟨by decide, unbounded_always_included demoTree rsC (by decide) [101] [97] [98] []⟩

/-- Witness for C4: input `[A, bad, C]` where bad's bounds query fails with
error code 7; Reset returns that error and the state is unchanged. -/
theorem reset_fail_fast_witness :
    RowSetTree.new.initted = false ∧
    (∀ p ∈ [rsA], ∀ c2, p.GetBounds ≠ Status.error c2) ∧
    rsBad.GetBounds = Status.error 7 ∧
    RowSetTree.new.Reset ([rsA] ++ rsBad :: [rsC]) = some (Status.error 7, RowSetTree.new) :=
  ⟨rfl,
   fun p hp c2 => by
     simp only [List.mem_singleton] at hp
     subst hp
     simp [rsA, RowSet.GetBounds],
   rfl,
   reset_fail_fast RowSetTree.new [rsA] [rsC] rsBad 7 rfl
     (fun p hp c2 => by
       simp only [List.mem_singleton] at hp
       subst hp
       simp [rsA, RowSet.GetBounds])
     rfl⟩

/-- Witness for C5 on the demonstration build. -/
theorem reset_partition_witness :
    RowSetTree.new.Reset demoRowSets = some (Status.ok, demoTree) ∧
    (demoTree.entries.length + demoTree.unbounded_rowsets.length = demoRowSets.length ∧
     ∀ r ∈ demoRowSets,
       ((r.GetBounds).isOk = true ∧ (∃ e ∈ demoTree.entries, e.rowset = r) ∧
         r ∉ demoTree.unbounded_rowsets) ∨
       ((r.GetBounds).IsNotSupported = true ∧ r ∈ demoTree.unbounded_rowsets ∧
         ∀ e ∈ demoTree.entries, e.rowset ≠ r)) :=
  ⟨by decide, reset_partition RowSetTree.new demoTree demoRowSets (by decide)⟩

/-- Witness for C6 on the demonstration build. -/
theorem reset_endpoints_sorted_witness :
    RowSetTree.new.Reset demoRowSets = some (Status.ok, demoTree) ∧
    (demoTree.key_endpoints.length = 2 * demoTree.entries.length ∧
     List.Perm demoTree.key_endpoints (demoTree.entries.flatMap entryEndpoints) ∧
     List.Sorted endpointLE demoTree.key_endpoints) :=
  ⟨by decide, reset_endpoints_sorted RowSetTree.new demoTree demoRowSets (by decide)⟩

/-- Witness for C7: calling Reset on the already-initialized demonstration
index hits the fatal check. -/
theorem reset_twice_fatal_witness :
    demoTree.initted = true ∧ demoTree.Reset demoRowSets = none :=
  ⟨rfl, reset_twice_fatal demoTree demoRowSets rfl⟩

/-- Witness for C8 at the NotSupported segment C of the demonstration
input. -/
theorem reset_notSupported_routing_witness :
    RowSetTree.new.initted = false ∧
    (∀ p ∈ demoRowSets, ∀ c, p.GetBounds ≠ Status.error c) ∧
    rsC ∈ demoRowSets ∧
    rsC.GetBounds = Status.notSupported ∧
    ∃ t, RowSetTree.new.Reset demoRowSets = some (Status.ok, t) ∧
      rsC ∈ t.unbounded_rowsets ∧
      (∀ e ∈ t.entries, e.rowset ≠ rsC) ∧
      ∀ ep ∈ t.key_endpoints, ep.rowset ≠ rsC :=
  ⟨rfl,
   fun p hp c => by
     simp only [demoRowSets, List.mem_cons, List.not_mem_nil, or_false] at hp
     rcases hp with rfl | rfl | rfl <;> simp [rsA, rsB, rsC, RowSet.GetBounds],
   by decide,
   rfl,
   reset_notSupported_routing RowSetTree.new demoRowSets rsC rfl
     (fun p hp c => by
       simp only [demoRowSets, List.mem_cons, List.not_mem_nil, or_false] at hp
       rcases hp with rfl | rfl | rfl <;> simp [rsA, rsB, rsC, RowSet.GetBounds])
     (by decide) rfl⟩

/-- Witness for C10 on the demonstration build, probe key `b` (98) and
range `[b, g]` (98, 103). -/
theorem query_results_order_witness :
    RowSetTree.new.Reset demoRowSets = some (Status.ok, demoTree) ∧
    (demoTree.FindRowSetsWithKeyInRange [98] [] =
      [] ++ (demoRowSets.filter fun r => (r.GetBounds).IsNotSupported) ++
        ((demoTree.entries.filter fun e =>
            decide (sliceCompare e.min_key [98] ≠ Ordering.gt) &&
            decide (sliceCompare [98] e.max_key ≠ Ordering.gt)).map
          fun e => e.rowset) ∧
     demoTree.FindRowSetsIntersectingInterval [98] [103] [] =
      [] ++ (demoRowSets.filter fun r => (r.GetBounds).IsNotSupported) ++
        ((demoTree.entries.filter fun e =>
            decide (sliceCompare e.min_key [103] ≠ Ordering.gt) &&
            decide (sliceCompare [98] e.max_key ≠ Ordering.gt)).map
          fun e => e.rowset)) :=
  ⟨by decide,
   query_results_order RowSetTree.new demoTree demoRowSets (by decide) [98] [98] [103] []⟩
